import Mathlib

/-!
Verification of the collection query/filter engine ("where") of this
repository.  The engine implementation (CollectionFilter, PathResolver,
ValueComparator) is exercised by the tests in `src/metrics/metrics.go`
(TestWhere, TestCheckCondition, TestEvaluateSubElem) but its own source
file is not part of `src/`, so the definitions below are modelled from
the specification and checked for consistency against those tests.
-/

namespace HugoWhere

/-- Modelled from the spec: the `DynamicValue` data model of the filter
engine (the engine's own source is not under `src/`; only its tests are).
Scalars are numbers (integer or floating kind), strings, booleans and
time instants; collections are ordered sequences, keyed mappings and
records with exported/private fields and accessor methods; `vPtr` is a
non-null pointer wrapper and `vNil` is the absent/invalid value (also a
null pointer or null reference).  Floating values are modelled as exact
rationals: the spec's "common widened numeric representation" is `Rat`.
A record field is `(name, exported, value)`; a record method is
`(name, validSignature, result)` where `validSignature` means a
zero-argument, externally visible method returning exactly one value. -/
inductive Value where
  | vNil : Value
  | vInt (n : Int) : Value
  | vFloat (q : Rat) : Value
  | vStr (s : String) : Value
  | vBool (b : Bool) : Value
  | vTime (t : Int) : Value
  | vSeq (xs : List Value) : Value
  | vMap (es : List (Value × Value)) : Value
  | vRec (fields : List (String × Bool × Value)) (methods : List (String × Bool × Value)) : Value
  | vPtr (v : Value) : Value

open Value

/-- Fully unwrap pointer wrappers, as the engine's `indirect` helper does
before comparing values or dispatching on the subject shape. -/
def indirectV : Value → Value
  | vPtr v => indirectV v
  | v => v

/-- Unwrap exactly one level of pointer, as the PathResolver does before
resolving a segment against a value. -/
def unwrap1 : Value → Value
  | vPtr v => v
  | v => v

/-- True for the absent/invalid value (after indirection). -/
def isAbsentB : Value → Bool
  | vNil => true
  | _ => false

/-- The numeric view: integer-kind and floating-kind values widen to a
common numeric representation (`Rat`). -/
def numQ : Value → Option Rat
  | vInt n => some (Rat.ofInt n)
  | vFloat q => some q
  | _ => none

def isStrB : Value → Bool
  | vStr _ => true
  | _ => false

def isSeqB : Value → Bool
  | vSeq _ => true
  | _ => false

def isMapB : Value → Bool
  | vMap _ => true
  | _ => false

def isBoolB : Value → Bool
  | vBool _ => true
  | _ => false

def isTimeB : Value → Bool
  | vTime _ => true
  | _ => false

/-- Lexicographic (codepoint-wise) comparison of character lists,
matching the byte-wise ordering of the host language's strings. -/
def charListLt : List Char → List Char → Bool
  | [], [] => false
  | [], _ :: _ => true
  | _ :: _, [] => false
  | a :: as1, b :: bs1 => if a == b then charListLt as1 bs1 else decide (a.toNat < b.toNat)

def strLtB (a b : String) : Bool := charListLt a.data b.data

def strLeB (a b : String) : Bool := !(strLtB b a)

/-- `listPre need hay` is true when `need` is a leading segment of `hay`. -/
def listPre : List Char → List Char → Bool
  | [], _ => true
  | _ :: _, [] => false
  | a :: as1, b :: bs1 => a == b && listPre as1 bs1

/-- `listSub need hay` is true when `need` occurs contiguously inside `hay`. -/
def listSub (need : List Char) : List Char → Bool
  | [] => listPre need []
  | b :: bs1 => listPre need (b :: bs1) || listSub need bs1

/-- `strSub a b` is true when the string `a` occurs within the string `b`. -/
def strSub (a b : String) : Bool := listSub a.data b.data

/-- Modelled from the spec: coercive equality of the ValueComparator
(the `eq` rule).  Both sides are unwrapped; two absent values are equal
and one absent, one present value are unequal; numbers of differing
representations are compared after widening to `Rat`; temporal values
compare by instant; booleans and strings compare literally; any other
kind combination is `false`, never an error. -/
def eqCore (a b : Value) : Bool :=
  if isAbsentB a || isAbsentB b then isAbsentB a && isAbsentB b
  else
    match numQ a, numQ b with
    | some x, some y => decide (x = y)
    | some _, none => false
    | none, some _ => false
    | none, none =>
      match a, b with
      | vStr x, vStr y => x == y
      | vBool x, vBool y => x == y
      | vTime x, vTime y => x == y
      | _, _ => false

def eqVal (a0 b0 : Value) : Bool :=
  eqCore (indirectV a0) (indirectV b0)

/-- Modelled from the spec: the strict ordering comparison of the
ValueComparator.  Defined for numeric pairs (after widening), string
pairs (lexicographic) and temporal pairs (chronological); every other
kind combination, including any side being absent, is `false`. -/
def ordLtB (a b : Value) : Bool :=
  match numQ a, numQ b with
  | some x, some y => decide (x < y)
  | _, _ =>
    match a, b with
    | vStr x, vStr y => strLtB x y
    | vTime x, vTime y => decide (x < y)
    | _, _ => false

/-- Modelled from the spec: the non-strict ordering comparison, on the
same kind combinations as `ordLtB`. -/
def ordLeB (a b : Value) : Bool :=
  match numQ a, numQ b with
  | some x, some y => decide (x ≤ y)
  | _, _ =>
    match a, b with
    | vStr x, vStr y => strLeB x y
    | vTime x, vTime y => decide (x ≤ y)
    | _, _ => false

/-- Modelled from the spec: the `in` rule.  If both the resolved value
and the match value are strings this is a substring test (the value
occurs within the match); otherwise the match must be a sequence and
membership is tested element-by-element with the `eq` coercion rules;
anything else is `false`. -/
def inVal (a b : Value) : Bool :=
  match a, b with
  | vStr x, vStr y => strSub x y
  | _, _ =>
    match b with
    | vSeq ms => ms.any (fun e => eqVal a e)
    | _ => false

/-- Modelled from the spec: the `intersect` rule.  Both sides must be
sequences; true when some pair of elements, one from each side, is
coercively equal under the `eq` rule. -/
def interVal (a b : Value) : Bool :=
  match a, b with
  | vSeq xs, vSeq ys => xs.any (fun x => ys.any (fun y => eqVal x y))
  | _, _ => false

def isEqOp (op : String) : Bool :=
  op == "" || op == "=" || op == "==" || op == "eq"

def isNeOp (op : String) : Bool :=
  op == "!=" || op == "<>" || op == "ne"

def isLtOp (op : String) : Bool := op == "<" || op == "lt"

def isLeOp (op : String) : Bool := op == "<=" || op == "le"

def isGtOp (op : String) : Bool := op == ">" || op == "gt"

def isGeOp (op : String) : Bool := op == ">=" || op == "ge"

def isOrdOp (op : String) : Bool :=
  isLtOp op || isLeOp op || isGtOp op || isGeOp op

/-- Modelled from the spec: the closed operator set
`{eq (default when omitted), ne, lt, le, gt, ge, in, not-in, intersect}`,
realised by the concrete operator tokens accepted by the engine. -/
def validOp (op : String) : Bool :=
  isEqOp op || isNeOp op || isOrdOp op ||
    op == "in" || op == "not in" || op == "intersect"

/-- Modelled from the spec: the boolean result of the ValueComparator on
a recognised operator token.  Both operands are unwrapped first; `ne` and
`not in` are the logical negations of `eq` and `in` on the same pair. -/
def condB (v0 m0 : Value) (op : String) : Bool :=
  let v := indirectV v0
  let m := indirectV m0
  if isEqOp op then eqVal v m
  else if isNeOp op then !eqVal v m
  else if isLtOp op then
    if isAbsentB v || isAbsentB m then false else ordLtB v m
  else if isLeOp op then
    if isAbsentB v || isAbsentB m then false else ordLeB v m
  else if isGtOp op then
    if isAbsentB v || isAbsentB m then false else ordLtB m v
  else if isGeOp op then
    if isAbsentB v || isAbsentB m then false else ordLeB m v
  else if op == "in" then inVal v m
  else if op == "not in" then !inVal v m
  else if op == "intersect" then interVal v m
  else false

/-- Parse a character list as a non-negative decimal integer, the way a
sequence index segment is parsed; any non-digit character is a failure. -/
def parseNatCore : List Char → Nat → Option Nat
  | [], acc => some acc
  | c :: cs, acc =>
    if 48 ≤ c.toNat && c.toNat ≤ 57 then parseNatCore cs (acc * 10 + (c.toNat - 48))
    else none

def parseNat (s : String) : Option Nat :=
  match s.data with
  | [] => none
  | cs => parseNatCore cs 0

/-- Split a character list on a separator character. -/
def splitChars (sep : Char) : List Char → List (List Char)
  | [] => [[]]
  | c :: cs =>
    let r := splitChars sep cs
    if c == sep then [] :: r
    else
      match r with
      | [] => [[c]]
      | h :: t => (c :: h) :: t

/-- Modelled from the spec: KeyPath parsing.  The path string is split on
the dot character; a leading empty segment (path starting with a dot) is
discarded; after discarding, at least one non-empty segment must remain,
else the path is malformed. -/
def parsePath (s : String) : Option (List String) :=
  let segs := (splitChars '.' s.data).map (fun cs => String.mk cs)
  let segs :=
    match segs with
    | "" :: rest => rest
    | other => other
  if segs.any (fun x => x != "") then some segs else none

/-- True when every key of the mapping is a string. -/
def mapStringKeys (es : List (Value × Value)) : Bool :=
  es.all (fun kv => isStrB kv.1)

/-- Scalar key equality used for mapping lookups: keys of the same scalar
kind compare by value; keys of different kinds never compare equal. -/
def keyEqB (a b : Value) : Bool :=
  match a, b with
  | vStr x, vStr y => x == y
  | vInt x, vInt y => x == y
  | vFloat x, vFloat y => decide (x = y)
  | vBool x, vBool y => x == y
  | vTime x, vTime y => x == y
  | _, _ => false

/-- Shape tag equality of two scalar keys, the model of the requirement
that a lookup key be directly comparable to the mapping's key
representation. -/
def sameKindB (a b : Value) : Bool :=
  match a, b with
  | vStr _, vStr _ => true
  | vInt _, vInt _ => true
  | vFloat _, vFloat _ => true
  | vBool _, vBool _ => true
  | vTime _, vTime _ => true
  | _, _ => false

/-- Look a key up in a mapping: a present key yields its value, an absent
(but kind-compatible) key yields the absent value. -/
def lookupKey (es : List (Value × Value)) (k : Value) : Value :=
  match es.find? (fun kv => keyEqB kv.1 k) with
  | some kv => kv.2
  | none => vNil

/-- Modelled from the spec: the PathResolver.  Resolves one string
segment against a value after unwrapping one level of pointer (an
empty/null pointer, i.e. the absent value, is a resolution failure).
A string-keyed mapping yields the entry's value, or the absent value
for a missing key; a mapping keyed by non-string values is a resolution
failure.  A record prefers a visible field of that name (a private field
of that name is a failure), and otherwise falls back to a valid accessor
method of that name.  A sequence resolves a segment that parses as an
in-range non-negative index.  Scalars and the absent value always fail. -/
def resolveSeg (v0 : Value) (seg : String) : Option Value :=
  match unwrap1 v0 with
  | vMap es => if mapStringKeys es then some (lookupKey es (vStr seg)) else none
  | vRec fs ms =>
    (match fs.find? (fun f => f.1 == seg) with
     | some f => if f.2.1 then some f.2.2 else none
     | none =>
       match ms.find? (fun f => f.1 == seg) with
       | some f => if f.2.1 then some f.2.2 else none
       | none => none)
  | vSeq xs =>
    (match parseNat seg with
     | some n => xs.get? n
     | none => none)
  | _ => none

/-- Chained resolution over a KeyPath, left to right; the first failure
short-circuits the whole chain as a per-element (soft) miss. -/
def resolvePath (v : Value) : List String → Option Value
  | [] => some v
  | s :: rest =>
    match resolveSeg v s with
    | some v2 => resolvePath v2 rest
    | none => none

/-- The parsed key argument: either a KeyPath of string segments, or a
single non-string key used directly against mapping elements. -/
inductive KeyR where
  | path (segs : List String) : KeyR
  | direct (k : Value) : KeyR

/-- Resolve the key argument against one candidate element.  A string
key chain-resolves its segments; a non-string key is looked up directly
in a mapping element of compatible key kind (any other element shape is
a soft miss). -/
def resolveElem : KeyR → Value → Option Value
  | .path segs, e => resolvePath e segs
  | .direct k, e =>
    match unwrap1 e with
    | vMap es => if es.all (fun kv => sameKindB kv.1 k) then some (lookupKey es k) else none
    | _ => none

/-- The error taxonomy of the filter call, from the spec: wrong trailing
argument count, non-string operator argument, operator token outside the
closed set, malformed path, unsupported subject shape. -/
inductive WhereError where
  | argCount : WhereError
  | invalidOpType : WhereError
  | invalidOp : WhereError
  | malformedPath : WhereError
  | unsupportedSubject : WhereError
deriving DecidableEq

/-- Modelled from the spec: `checkCondition`, the ValueComparator
contract.  It fails with an invalid-operator error exactly when the
operator token is outside the closed set, and otherwise produces the
boolean comparison result. -/
def checkCondition (v m : Value) (op : String) : Except WhereError Bool :=
  if validOp op then .ok (condB v m op) else .error .invalidOp

/-- Modelled from the spec: validation of the trailing arguments of the
filter call.  Exactly one trailing argument is the match value with the
operator defaulting to `eq` (the empty token); exactly two are the
operator token, which must be a string-kind value, then the match value;
any other count is an argument-count error. -/
def parseArgs : List Value → Except WhereError (String × Value)
  | [m] => .ok ("", m)
  | [opv, m] =>
    (match opv with
     | vStr s => .ok (s, m)
     | _ => .error .invalidOpType)
  | _ => .error .argCount

/-- Parse the key argument: a string key becomes a KeyPath (malformed
paths are an error); any other key is used directly. -/
def mkResolver : Value → Except WhereError KeyR
  | vStr s =>
    (match parsePath s with
     | some segs => .ok (.path segs)
     | none => .error .malformedPath)
  | k => .ok (.direct k)

/-- Modelled from the spec: the sequence branch of the CollectionFilter.
Each element's key is resolved; a soft miss excludes the element; a
resolved value keeps the element exactly when the comparison holds.
The output preserves the original relative order. -/
def whereSeq (r : KeyR) (op : String) (mv : Value) (xs : List Value) : List Value :=
  xs.filter (fun e =>
    match resolveElem r e with
    | some v => condB v mv op
    | none => false)

/-- Modelled from the spec: the keyed-mapping branch of the
CollectionFilter.  For each entry whose value is a sequence, the
identical filtering procedure is applied to that inner sequence; the
entry is retained, mapped to its original unfiltered value, exactly when
the recursive result is non-empty. -/
def whereMap (r : KeyR) (op : String) (mv : Value) (es : List (Value × Value)) :
    List (Value × Value) :=
  es.filter (fun kv =>
    match indirectV kv.2 with
    | vSeq ys => !(whereSeq r op mv ys).isEmpty
    | _ => false)

/-- Modelled from the spec: the `Where` entry point (CollectionFilter).
Trailing arguments are validated, the operator token must belong to the
closed set, the key argument is parsed, and the subject (pointers
unwrapped) is dispatched by shape: an ordered sequence is filtered
element-wise, a keyed mapping is filtered entry-wise through its
sequence values, and any other subject shape is an unsupported-subject
error. -/
def Where (subject key : Value) (args : List Value) : Except WhereError Value :=
  match parseArgs args with
  | .error e => .error e
  | .ok (op, mv) =>
    if validOp op then
      match mkResolver key with
      | .error e => .error e
      | .ok r =>
        match indirectV subject with
        | vSeq xs => .ok (vSeq (whereSeq r op mv xs))
        | vMap es => .ok (vMap (whereMap r op mv es))
        | _ => .error .unsupportedSubject
    else .error .invalidOp

/-- A value is bare when it is neither a sequence nor a keyed mapping. -/
def isBare : Value → Bool
  | vSeq _ => false
  | vMap _ => false
  | _ => true

/-- Two present values have comparable kinds for `eq` when both are
numeric, both strings, both booleans, or both temporal. -/
def sameCompKind (a b : Value) : Bool :=
  ((numQ a).isSome && (numQ b).isSome) || (isStrB a && isStrB b) ||
    (isBoolB a && isBoolB b) || (isTimeB a && isTimeB b)

/-- Two values have comparable kinds for the ordering operators when
both are numeric, both strings, or both temporal. -/
def sameOrdKind (a b : Value) : Bool :=
  ((numQ a).isSome && (numQ b).isSome) || (isStrB a && isStrB b) ||
    (isTimeB a && isTimeB b)

theorem indirectV_idem : ∀ v, indirectV (indirectV v) = indirectV v
  | vNil => rfl
  | vInt _ => rfl
  | vFloat _ => rfl
  | vStr _ => rfl
  | vBool _ => rfl
  | vTime _ => rfl
  | vSeq _ => rfl
  | vMap _ => rfl
  | vRec _ _ => rfl
  | vPtr v => indirectV_idem v

theorem eqVal_indirect (a b : Value) :
    eqVal (indirectV a) (indirectV b) = eqVal a b := by
  simp only [eqVal, indirectV_idem]

theorem eqVal_indirect_left (a b : Value) :
    eqVal (indirectV a) b = eqVal a b := by
  simp only [eqVal, indirectV_idem]

theorem isNeOp_cases {op : String} (h : isNeOp op = true) :
    op = "!=" ∨ op = "<>" ∨ op = "ne" := by
  simp only [isNeOp, Bool.or_eq_true, beq_iff_eq] at h
  tauto

theorem isEqOp_cases {op : String} (h : isEqOp op = true) :
    op = "" ∨ op = "=" ∨ op = "==" ∨ op = "eq" := by
  simp only [isEqOp, Bool.or_eq_true, beq_iff_eq] at h
  tauto

theorem isOrdOp_cases {op : String} (h : isOrdOp op = true) :
    op = "<" ∨ op = "lt" ∨ op = "<=" ∨ op = "le" ∨
      op = ">" ∨ op = "gt" ∨ op = ">=" ∨ op = "ge" := by
  simp only [isOrdOp, isLtOp, isLeOp, isGtOp, isGeOp, Bool.or_eq_true,
    beq_iff_eq] at h
  tauto

theorem condB_eq_op {v m : Value} {op : String} (h : isEqOp op = true) :
    condB v m op = eqVal v m := by
  rcases isEqOp_cases h with h2 | h2 | h2 | h2 <;> subst h2 <;>
    simp only [condB] <;> exact eqVal_indirect v m

/-- C4: for every pair of a resolved value and a match value, the `ne`
comparison returns exactly the logical negation of the `eq` comparison
on the same pair under the same coercion rules, including mismatched
incomparable kinds and pairs where exactly one side is absent. -/
theorem C4_ne_negation_of_eq (v m : Value) (opn ope : String)
    (hn : isNeOp opn = true) (he : isEqOp ope = true) :
    condB v m opn = !condB v m ope := by
  rcases isNeOp_cases hn with h1 | h1 | h1 <;>
    rcases isEqOp_cases he with h2 | h2 | h2 | h2 <;>
      subst h1 <;> subst h2 <;> rfl

/-- C4 witness: the negation law at a concrete mismatched-kind pair and
at a concrete pair with exactly one absent side. -/
theorem C4_ne_negation_of_eq_witness :
    (condB (vBool true) (vStr "foo") "!=" = !condB (vBool true) (vStr "foo") "==") ∧
    (condB (vInt 123) vNil "ne" = !condB (vInt 123) vNil "eq") :=
  ⟨C4_ne_negation_of_eq (vBool true) (vStr "foo") "!=" "==" rfl rfl,
   C4_ne_negation_of_eq (vInt 123) vNil "ne" "eq" rfl rfl⟩

/-- C7: numeric values of differing concrete representations are
compared by widening both to the common numeric representation, for `eq`
and for the ordering operators; in particular the integer 4 equals the
floating 4.0, and the integer 4 is less than the floating 4.2. -/
theorem C7_numeric_widening (n : Int) (q : Rat) :
    (condB (vInt n) (vFloat q) "eq" = decide (Rat.ofInt n = q)) ∧
    (condB (vFloat q) (vInt n) "eq" = decide (q = Rat.ofInt n)) ∧
    (condB (vInt n) (vFloat q) "lt" = decide (Rat.ofInt n < q)) ∧
    (condB (vInt n) (vFloat q) "le" = decide (Rat.ofInt n ≤ q)) ∧
    (condB (vInt n) (vFloat q) "gt" = decide (q < Rat.ofInt n)) ∧
    (condB (vInt n) (vFloat q) "ge" = decide (q ≤ Rat.ofInt n)) ∧
    (condB (vInt 4) (vFloat 4) "eq" = true) ∧
    (condB (vInt 4) (vFloat (mkRat 21 5)) "lt" = true) :=
  ⟨rfl, rfl, rfl, rfl, rfl, rfl, rfl, rfl⟩

/-- C6: when both the resolved value and the match value are strings,
`in` is a substring test of the value within the match; when the match
value is a sequence, `in` holds exactly when some element is coercively
equal to the resolved value under the `eq` rules; when the match is
neither (for the given pair), `in` is false; `not in` is the logical
negation of `in` on identical operands. -/
theorem C6_in_semantics (a b : String) (v w : Value) (ms : List Value) :
    (condB (vStr a) (vStr b) "in" = strSub a b) ∧
    (condB v (vSeq ms) "in" = ms.any (fun e => condB v e "eq")) ∧
    (condB v w "not in" = !condB v w "in") ∧
    (isSeqB (indirectV w) = false →
      (isStrB (indirectV v) && isStrB (indirectV w)) = false →
      condB v w "in" = false) := by
  refine ⟨rfl, ?_, rfl, ?_⟩
  · show inVal (indirectV v) (vSeq ms) = ms.any (fun e => condB v e "eq")
    have hz : (fun e => eqVal (indirectV v) e) = (fun e => condB v e "eq") := by
      funext e
      rw [condB_eq_op (by rfl)]
      simp only [eqVal, indirectV_idem]
    cases hv : indirectV v <;> simp only [inVal] <;> rw [← hz] <;> rw [hv]
  · intro h1 h2
    show inVal (indirectV v) (indirectV w) = false
    cases hv : indirectV v <;> cases hw : indirectV w <;>
      simp_all [inVal, isSeqB, isStrB]

/-- C6 witness: the substring, membership and negation facts at the
concrete pairs exercised by the repository's tests. -/
theorem C6_in_semantics_witness :
    (condB (vStr "foo") (vStr "bar-foo-baz") "in" = strSub "foo" "bar-foo-baz") ∧
    (condB (vInt 4) (vSeq [vInt 3, vInt 4, vInt 5]) "in" =
      [vInt 3, vInt 4, vInt 5].any (fun e => condB (vInt 4) e "eq")) ∧
    (condB (vStr "foo") (vStr "bar--baz") "not in" =
      !condB (vStr "foo") (vStr "bar--baz") "in") ∧
    (condB (vInt 1) (vBool true) "in" = false) := by
  have h1 := C6_in_semantics "foo" "bar-foo-baz" (vInt 4) (vBool true) [vInt 3, vInt 4, vInt 5]
  have h2 := C6_in_semantics "foo" "bar--baz" (vStr "foo") (vStr "bar--baz") []
  exact ⟨h1.1, h1.2.1, h2.2.2.1, (C6_in_semantics "" "" (vInt 1) (vBool true) []).2.2.2 rfl rfl⟩

theorem eqCore_false_of_kinds {a b : Value} (ha : isAbsentB a = false)
    (hb : isAbsentB b = false) (h : sameCompKind a b = false) :
    eqCore a b = false := by
  cases a <;> cases b <;>
    simp_all [eqCore, sameCompKind, numQ, isStrB, isBoolB, isTimeB, isAbsentB]

theorem ordLtB_false_of_kinds {a b : Value} (h : sameOrdKind a b = false) :
    ordLtB a b = false := by
  cases a <;> cases b <;>
    simp_all [ordLtB, sameOrdKind, numQ, isStrB, isTimeB]

theorem ordLeB_false_of_kinds {a b : Value} (h : sameOrdKind a b = false) :
    ordLeB a b = false := by
  cases a <;> cases b <;>
    simp_all [ordLeB, sameOrdKind, numQ, isStrB, isTimeB]

/-- Reduction of the filter call on a sequence subject, once the
trailing arguments, the operator token and the key have been parsed. -/
theorem Where_seq (xs : List Value) (key : Value) (args : List Value)
    (op : String) (mv : Value) (r : KeyR)
    (hargs : parseArgs args = .ok (op, mv)) (hop : validOp op = true)
    (hk : mkResolver key = .ok r) :
    Where (vSeq xs) key args = .ok (vSeq (whereSeq r op mv xs)) := by
  simp [Where, hargs, hop, hk, indirectV]

/-- The `eq` comparison of a value against the absent match value is
exactly the test that the value itself is absent. -/
theorem condB_nil_eq (w : Value) : condB w vNil "" = isAbsentB (indirectV w) := by
  have h : condB w vNil "" = eqCore (indirectV w) vNil := by
    show eqVal (indirectV w) (indirectV vNil) = _
    simp [eqVal, indirectV_idem, indirectV]
  rw [h]
  simp [eqCore, isAbsentB]

theorem condB_ord_reduce (v w : Value) {op : String} (ho : isOrdOp op = true) :
    condB v w op =
      (if isAbsentB (indirectV v) || isAbsentB (indirectV w) then false
       else if isLtOp op then ordLtB (indirectV v) (indirectV w)
       else if isLeOp op then ordLeB (indirectV v) (indirectV w)
       else if isGtOp op then ordLtB (indirectV w) (indirectV v)
       else ordLeB (indirectV w) (indirectV v)) := by
  rcases isOrdOp_cases ho with h | h | h | h | h | h | h | h <;> subst h <;> rfl

/-- C5: under the `eq` operator two absent values compare equal, one
absent and one present value compare unequal, a pair of present values
of mismatched incomparable kinds compares false without an error, and
filtering a sequence with an absent match value selects exactly the
elements whose path resolves to an absent value. -/
theorem C5_eq_absent_semantics (v m : Value) (ope : String) (he : isEqOp ope = true)
    (xs : List Value) (key : Value) (r : KeyR) (hk : mkResolver key = .ok r) :
    (isAbsentB (indirectV v) = true → isAbsentB (indirectV m) = true →
       condB v m ope = true) ∧
    (isAbsentB (indirectV v) ≠ isAbsentB (indirectV m) →
       condB v m ope = false) ∧
    (isAbsentB (indirectV v) = false → isAbsentB (indirectV m) = false →
       sameCompKind (indirectV v) (indirectV m) = false →
       checkCondition v m ope = .ok false) ∧
    (Where (vSeq xs) key [vNil] =
       .ok (vSeq (xs.filter (fun e =>
         match resolveElem r e with
         | some w => isAbsentB (indirectV w)
         | none => false)))) := by
  refine ⟨?_, ?_, ?_, ?_⟩
  · intro h1 h2
    rw [condB_eq_op he]
    simp [eqVal, eqCore, h1, h2]
  · intro h1
    rw [condB_eq_op he]
    cases hv : isAbsentB (indirectV v) <;> cases hm : isAbsentB (indirectV m) <;>
      simp_all [eqVal, eqCore]
  · intro ha hb h1
    have hv : validOp ope = true := by simp [validOp, he]
    have h2 : condB v m ope = false := by
      rw [condB_eq_op he]
      show eqCore (indirectV v) (indirectV m) = false
      exact eqCore_false_of_kinds ha hb h1
    simp [checkCondition, hv, h2]
  · have hfil : whereSeq r "" vNil xs = xs.filter (fun e =>
        match resolveElem r e with
        | some w => isAbsentB (indirectV w)
        | none => false) := by
      refine List.filter_congr ?_
      intro e _
      cases hre : resolveElem r e
      · rfl
      · simpa using condB_nil_eq _
    rw [Where_seq xs key [vNil] "" vNil r rfl rfl hk, hfil]

/-- C5 witness: the absent-value semantics at the concrete inputs of the
repository's tests (a sequence of mappings where one element lacks the
key `b`, filtered with an absent match value, keeps exactly that
element). -/
theorem C5_eq_absent_semantics_witness :
    (condB vNil vNil "" = true) ∧
    (condB (vInt 123) vNil "" = false) ∧
    (checkCondition (vBool true) (vStr "foo") "" = .ok false) ∧
    (Where (vSeq [vMap [(vStr "a", vInt 1), (vStr "b", vInt 2)],
                  vMap [(vStr "a", vInt 3)],
                  vMap [(vStr "a", vInt 5), (vStr "b", vInt 6)]])
       (vStr "b") [vNil] =
      .ok (vSeq ([vMap [(vStr "a", vInt 1), (vStr "b", vInt 2)],
                  vMap [(vStr "a", vInt 3)],
                  vMap [(vStr "a", vInt 5), (vStr "b", vInt 6)]].filter (fun e =>
        match resolveElem (KeyR.path ["b"]) e with
        | some w => isAbsentB (indirectV w)
        | none => false)))) := by
  have h1 := C5_eq_absent_semantics vNil vNil "" rfl [] (vStr "b") (KeyR.path ["b"]) rfl
  have h2 := C5_eq_absent_semantics (vInt 123) vNil "" rfl [] (vStr "b") (KeyR.path ["b"]) rfl
  have h3 := C5_eq_absent_semantics (vBool true) (vStr "foo") "" rfl
    [vMap [(vStr "a", vInt 1), (vStr "b", vInt 2)],
     vMap [(vStr "a", vInt 3)],
     vMap [(vStr "a", vInt 5), (vStr "b", vInt 6)]] (vStr "b") (KeyR.path ["b"]) rfl
  exact ⟨h1.1 rfl rfl, h2.2.1 (by simp [indirectV, isAbsentB]),
    h3.2.2.1 rfl rfl rfl, h3.2.2.2⟩

/-- C8: filtering any sequence with an ordering operator against an
absent match value returns an empty result without an error; an ordering
comparison with an absent side is false; an ordering comparison of a
pair that is not a numeric, string, or temporal pair is false. -/
theorem C8_ordering_absent (xs : List Value) (key : Value) (r : KeyR)
    (hk : mkResolver key = .ok r) (opo : String) (ho : isOrdOp opo = true)
    (v w : Value) :
    (Where (vSeq xs) key [vStr opo, vNil] = .ok (vSeq [])) ∧
    ((isAbsentB (indirectV v) || isAbsentB (indirectV w)) = true →
       condB v w opo = false) ∧
    (sameOrdKind (indirectV v) (indirectV w) = false →
       condB v w opo = false) := by
  have hvalid : validOp opo = true := by simp [validOp, ho]
  have habs : ∀ v2 w2 : Value,
      (isAbsentB (indirectV v2) || isAbsentB (indirectV w2)) = true →
      condB v2 w2 opo = false := by
    intro v2 w2 h
    rw [condB_ord_reduce v2 w2 ho, h]
    simp
  have hkind : ∀ v2 w2 : Value,
      sameOrdKind (indirectV v2) (indirectV w2) = false →
      condB v2 w2 opo = false := by
    intro v2 w2 h
    rw [condB_ord_reduce v2 w2 ho]
    have hsymm : sameOrdKind (indirectV w2) (indirectV v2) = false := by
      cases h2 : indirectV v2 <;> cases h3 : indirectV w2 <;>
        simp_all [sameOrdKind, numQ, isStrB, isTimeB]
    cases hg : (isAbsentB (indirectV v2) || isAbsentB (indirectV w2)) <;>
      simp [ordLtB_false_of_kinds h, ordLeB_false_of_kinds h,
        ordLtB_false_of_kinds hsymm, ordLeB_false_of_kinds hsymm]
  refine ⟨?_, habs v w, hkind v w⟩
  have hnil : whereSeq r opo vNil xs = [] := by
    unfold whereSeq
    rw [List.filter_eq_nil_iff]
    intro e _
    rcases hre : resolveElem r e with h | w2
    · simp [hre]
    · have := habs w2 vNil (by simp [indirectV, isAbsentB])
      simp [hre, this]
  rw [Where_seq xs key [vStr opo, vNil] opo vNil r rfl hvalid hk, hnil]

/-- C8 witness: the ordering-operator behavior at the concrete inputs of
the repository's tests (filtering with the greater-than operator and an
absent match value yields an empty sequence; ordering booleans is
false). -/
theorem C8_ordering_absent_witness :
    (Where (vSeq [vMap [(vStr "a", vInt 1), (vStr "b", vInt 2)],
                  vMap [(vStr "a", vInt 3)],
                  vMap [(vStr "a", vInt 5), (vStr "b", vInt 6)]])
       (vStr "b") [vStr ">", vNil] = .ok (vSeq [])) ∧
    (condB (vInt 2) vNil ">" = false) ∧
    (condB (vBool true) (vBool false) ">" = false) := by
  have h := C8_ordering_absent
    [vMap [(vStr "a", vInt 1), (vStr "b", vInt 2)],
     vMap [(vStr "a", vInt 3)],
     vMap [(vStr "a", vInt 5), (vStr "b", vInt 6)]]
    (vStr "b") (KeyR.path ["b"]) rfl ">" rfl (vInt 2) vNil
  have h2 := C8_ordering_absent [] (vStr "b") (KeyR.path ["b"]) rfl ">" rfl
    (vBool true) (vBool false)
  exact ⟨h.1, h.2.1 (by simp [indirectV, isAbsentB]), h2.2.2 (by simp [indirectV, sameOrdKind, numQ, isStrB, isTimeB])⟩

/-- C2: a successful filter of a sequence subject produces an
order-preserving subsequence of it: exactly the elements whose path
resolution does not soft-miss and whose comparison is true, in their
original relative order, with no insertion or duplication. -/
theorem C2_sequence_subsequence (xs : List Value) (key : Value) (args : List Value)
    (res : Value) (h : Where (vSeq xs) key args = .ok res) :
    ∃ op mv r ys,
      parseArgs args = .ok (op, mv) ∧ mkResolver key = .ok r ∧
      res = vSeq ys ∧
      ys = xs.filter (fun e =>
        match resolveElem r e with
        | some v => condB v mv op
        | none => false) ∧
      List.Sublist ys xs := by
  rcases hp : parseArgs args with e | ⟨op, mv⟩ <;> simp only [Where, hp] at h
  · exact absurd h (by simp)
  by_cases hv : validOp op
  case neg => simp [hv] at h
  rw [if_pos hv] at h
  rcases hr : mkResolver key with e2 | r <;> simp only [hr] at h
  · exact absurd h (by simp)
  simp only [indirectV, Except.ok.injEq] at h
  exact ⟨op, mv, r, whereSeq r op mv xs, rfl, rfl, h.symm, rfl, List.filter_sublist _⟩

/-- C2 witness: the subsequence property at a concrete sequence of
records filtered on field `B` equal to `"f"`. -/
theorem C2_sequence_subsequence_witness :
    ∃ op mv r ys,
      parseArgs [vStr "f"] = .ok (op, mv) ∧ mkResolver (vStr "B") = .ok r ∧
      vSeq [vRec [("A", true, vStr "e"), ("B", true, vStr "f")] []] = vSeq ys ∧
      ys = [vRec [("A", true, vStr "a"), ("B", true, vStr "b")] [],
            vRec [("A", true, vStr "c"), ("B", true, vStr "d")] [],
            vRec [("A", true, vStr "e"), ("B", true, vStr "f")] []].filter (fun e =>
        match resolveElem r e with
        | some v => condB v mv op
        | none => false) ∧
      List.Sublist ys
        [vRec [("A", true, vStr "a"), ("B", true, vStr "b")] [],
         vRec [("A", true, vStr "c"), ("B", true, vStr "d")] [],
         vRec [("A", true, vStr "e"), ("B", true, vStr "f")] []] :=
  C2_sequence_subsequence
    [vRec [("A", true, vStr "a"), ("B", true, vStr "b")] [],
     vRec [("A", true, vStr "c"), ("B", true, vStr "d")] [],
     vRec [("A", true, vStr "e"), ("B", true, vStr "f")] []]
    (vStr "B") [vStr "f"] (vSeq [vRec [("A", true, vStr "e"), ("B", true, vStr "f")] []]) rfl

/-- C9: the filter is idempotent on sequence subjects: whenever a filter
call succeeds, filtering its result again with the same key, operator
and match value returns that result unchanged. -/
theorem C9_idempotent (xs : List Value) (key : Value) (args : List Value)
    (res : Value) (h : Where (vSeq xs) key args = .ok res) :
    Where res key args = .ok res := by
  rcases hp : parseArgs args with e | ⟨op, mv⟩ <;> simp only [Where, hp] at h
  · exact absurd h (by simp)
  by_cases hv : validOp op
  case neg => simp [hv] at h
  rw [if_pos hv] at h
  rcases hr : mkResolver key with e2 | r <;> simp only [hr] at h
  · exact absurd h (by simp)
  simp only [indirectV, Except.ok.injEq] at h
  subst h
  rw [Where_seq (whereSeq r op mv xs) key args op mv r hp hv hr]
  have hfix : whereSeq r op mv (whereSeq r op mv xs) = whereSeq r op mv xs := by
    unfold whereSeq
    rw [List.filter_filter]
    exact List.filter_congr (fun e _ => Bool.and_self _)
  rw [hfix]

/-- C9 witness: idempotence at a concrete sequence of mappings filtered
on key `b` equal to 4. -/
theorem C9_idempotent_witness :
    Where (vSeq [vMap [(vStr "a", vInt 3), (vStr "b", vInt 4)]]) (vStr "b") [vInt 4] =
      .ok (vSeq [vMap [(vStr "a", vInt 3), (vStr "b", vInt 4)]]) :=
  C9_idempotent
    [vMap [(vStr "a", vInt 1), (vStr "b", vInt 2)],
     vMap [(vStr "a", vInt 3), (vStr "b", vInt 4)],
     vMap [(vStr "a", vInt 5), (vStr "x", vInt 4)]]
    (vStr "b") [vInt 4] (vSeq [vMap [(vStr "a", vInt 3), (vStr "b", vInt 4)]]) rfl

/-- C1: on a keyed mapping whose values are sequences, an outer key is
retained if and only if recursively filtering its inner sequence with
the same key, operator and match value yields a non-empty result, and a
retained key is mapped to its original, unfiltered inner value; every
other key is dropped. -/
theorem C1_map_subject (key mv : Value) (args : List Value) (op : String) (r : KeyR)
    (es : List (Value × Value))
    (hargs : parseArgs args = .ok (op, mv)) (hop : validOp op = true)
    (hkey : mkResolver key = .ok r)
    (hvals : es.all (fun kv => isSeqB (indirectV kv.2)) = true) :
    Where (vMap es) key args =
      .ok (vMap (es.filter (fun kv =>
        match Where kv.2 key args with
        | .ok (vSeq zs) => !zs.isEmpty
        | _ => false))) := by
  have hred : Where (vMap es) key args = .ok (vMap (whereMap r op mv es)) := by
    simp [Where, hargs, hop, hkey, indirectV]
  rw [hred]
  have hcong : whereMap r op mv es = es.filter (fun kv =>
      match Where kv.2 key args with
      | .ok (vSeq zs) => !zs.isEmpty
      | _ => false) := by
    unfold whereMap
    refine List.filter_congr ?_
    intro kv hkv
    have hs := List.all_eq_true.mp hvals kv hkv
    cases hys : indirectV kv.2
    case vSeq ys =>
      have hw : Where kv.2 key args = .ok (vSeq (whereSeq r op mv ys)) := by
        simp [Where, hargs, hop, hkey, hys]
      simp [hys, hw]
    all_goals (rw [hys] at hs; simp [isSeqB] at hs)
  rw [hcong]

/-- C1 witness: the mapping-of-sequences behavior at the concrete subject
of the repository's tests (keys `foo`, `bar`, `zap`, operator `in`,
match `[3,4,5]`). -/
theorem C1_map_subject_witness :
    Where (vMap [(vStr "foo", vSeq [vMap [(vStr "a", vInt 1), (vStr "b", vInt 2)]]),
                 (vStr "bar", vSeq [vMap [(vStr "a", vInt 3), (vStr "b", vInt 4)]]),
                 (vStr "zap", vSeq [vMap [(vStr "a", vInt 5), (vStr "b", vInt 6)]])])
      (vStr "b") [vStr "in", vSeq [vInt 3, vInt 4, vInt 5]] =
    .ok (vMap ([(vStr "foo", vSeq [vMap [(vStr "a", vInt 1), (vStr "b", vInt 2)]]),
                (vStr "bar", vSeq [vMap [(vStr "a", vInt 3), (vStr "b", vInt 4)]]),
                (vStr "zap", vSeq [vMap [(vStr "a", vInt 5), (vStr "b", vInt 6)]])].filter (fun kv =>
      match Where kv.2 (vStr "b") [vStr "in", vSeq [vInt 3, vInt 4, vInt 5]] with
      | .ok (vSeq zs) => !zs.isEmpty
      | _ => false))) :=
  C1_map_subject (vStr "b") (vSeq [vInt 3, vInt 4, vInt 5])
    [vStr "in", vSeq [vInt 3, vInt 4, vInt 5]] "in" (KeyR.path ["b"])
    [(vStr "foo", vSeq [vMap [(vStr "a", vInt 1), (vStr "b", vInt 2)]]),
     (vStr "bar", vSeq [vMap [(vStr "a", vInt 3), (vStr "b", vInt 4)]]),
     (vStr "zap", vSeq [vMap [(vStr "a", vInt 5), (vStr "b", vInt 6)]])]
    rfl rfl rfl rfl

/-- C3: calling the filter with zero trailing arguments or with more
than two raises the argument-count error; a two-argument call whose
(string) operator token is outside the closed operator set raises the
invalid-operator error; a well-formed call on a bare subject that is
neither a sequence nor a keyed mapping (a nil sequence reference, a bare
record, a scalar) raises the unsupported-subject error; in each case no
result is produced. -/
theorem C3_calling_errors (s k a b c mv : Value) (rest : List Value)
    (op : String) (r : KeyR) :
    (Where s k [] = .error .argCount) ∧
    (Where s k (a :: b :: c :: rest) = .error .argCount) ∧
    (validOp op = false → Where s k [vStr op, mv] = .error .invalidOp) ∧
    (validOp op = true → mkResolver k = .ok r → isBare (indirectV s) = true →
       Where s k [vStr op, mv] = .error .unsupportedSubject) := by
  refine ⟨rfl, rfl, ?_, ?_⟩
  · intro h
    simp [Where, parseArgs, h]
  · intro h hr hb
    simp only [Where, parseArgs, h, if_true, hr]
    cases hs : indirectV s <;> simp_all [isBare]

/-- C3 witness: the three configuration-level errors at concrete calls
mirroring the repository's tests. -/
theorem C3_calling_errors_witness :
    (Where (vMap [(vStr "a", vInt 1), (vStr "b", vInt 2)]) (vStr "a") [] =
       .error .argCount) ∧
    (Where (vMap [(vStr "a", vInt 1), (vStr "b", vInt 2)]) (vStr "a")
       (vSeq [vInt 61] :: vInt 1 :: vInt 2 :: []) = .error .argCount) ∧
    (Where (vSeq [vRec [("A", true, vStr "a"), ("B", true, vStr "b")] []]) (vStr "B")
       [vStr "op", vStr "f"] = .error .invalidOp) ∧
    (Where (vRec [("A", true, vStr "a"), ("B", true, vStr "b")] []) (vStr "A")
       [vStr "eq", vStr "a"] = .error .unsupportedSubject) := by
  have h1 := C3_calling_errors (vMap [(vStr "a", vInt 1), (vStr "b", vInt 2)]) (vStr "a")
    (vSeq [vInt 61]) (vInt 1) (vInt 2) (vStr "f") [] "op" (KeyR.path ["a"])
  have h2 := C3_calling_errors (vSeq [vRec [("A", true, vStr "a"), ("B", true, vStr "b")] []])
    (vStr "B") vNil vNil vNil (vStr "f") [] "op" (KeyR.path ["B"])
  have h3 := C3_calling_errors (vRec [("A", true, vStr "a"), ("B", true, vStr "b")] [])
    (vStr "A") vNil vNil vNil (vStr "a") [] "eq" (KeyR.path ["A"])
  exact ⟨h1.1, h1.2.1, h2.2.2.1 rfl, h3.2.2.2 rfl rfl rfl⟩

/-- C10: the key argument is not restricted to a dot-delimited string:
for a non-string key, filtering a sequence succeeds without error and
returns exactly the elements that are mappings of the key's own key
kind whose value at that key compares equal to the match value. -/
theorem C10_nonstring_key (k mv : Value) (hk : isStrB k = false) (xs : List Value) :
    Where (vSeq xs) k [mv] =
      .ok (vSeq (xs.filter (fun e =>
        match unwrap1 e with
        | vMap es =>
            es.all (fun kv => sameKindB kv.1 k) && eqVal (lookupKey es k) mv
        | _ => false))) := by
  have hr : mkResolver k = .ok (KeyR.direct k) := by
    cases k <;> simp_all [mkResolver, isStrB]
  rw [Where_seq xs k [mv] "" mv (KeyR.direct k) rfl rfl hr]
  have hcong : whereSeq (KeyR.direct k) "" mv xs = xs.filter (fun e =>
      match unwrap1 e with
      | vMap es =>
          es.all (fun kv => sameKindB kv.1 k) && eqVal (lookupKey es k) mv
      | _ => false) := by
    refine List.filter_congr ?_
    intro e _
    have heq : ∀ w : Value, condB w mv "" = eqVal w mv :=
      fun w => condB_eq_op rfl
    simp only [resolveElem]
    cases hu : unwrap1 e
    case vMap es =>
      cases hall : es.all (fun kv => sameKindB kv.1 k) <;>
        simp [hall, heq]
    all_goals simp
  rw [hcong]

/-- C10 witness: the integer-key behavior at the concrete subject of the
repository's tests, a sequence of integer-keyed mappings filtered with
the integer key 2 and match value `"m"`. -/
theorem C10_nonstring_key_witness :
    Where (vSeq [vMap [(vInt 1, vStr "a"), (vInt 2, vStr "m")],
                 vMap [(vInt 1, vStr "c"), (vInt 2, vStr "d")],
                 vMap [(vInt 1, vStr "e"), (vInt 3, vStr "m")]]) (vInt 2) [vStr "m"] =
      .ok (vSeq ([vMap [(vInt 1, vStr "a"), (vInt 2, vStr "m")],
                  vMap [(vInt 1, vStr "c"), (vInt 2, vStr "d")],
                  vMap [(vInt 1, vStr "e"), (vInt 3, vStr "m")]].filter (fun e =>
        match unwrap1 e with
        | vMap es =>
            es.all (fun kv => sameKindB kv.1 (vInt 2)) && eqVal (lookupKey es (vInt 2)) (vStr "m")
        | _ => false))) :=
  C10_nonstring_key (vInt 2) (vStr "m") rfl
    [vMap [(vInt 1, vStr "a"), (vInt 2, vStr "m")],
     vMap [(vInt 1, vStr "c"), (vInt 2, vStr "d")],
     vMap [(vInt 1, vStr "e"), (vInt 3, vStr "m")]]

end HugoWhere
